import Mathlib

/-!
Shallow embedding of the temporal-axis coordinate engine in
`src/coord/datetime.rs` (the `plotters` date/time coordinates), together
with theorems settling the frozen claims about it.

Modelling conventions, chosen to mirror the Rust and its `chrono` types:

* `Date<Z>` is modelled as an `Int` day number (days since an arbitrary
  epoch).  `chrono` date subtraction yields a whole-day `Duration`, whose
  `num_days` is exactly the day-number difference, and adding
  `Duration::days(k)` adds `k`; `Duration::weeks(k)` adds `7*k` days.
* `DateTime<Z>` (timezone `Utc`, the faithful instantiation for a fixed
  offset) is modelled as an `Int` nanosecond count since the epoch.  The
  calendar date of an instant is its floor-division by the nanoseconds of
  one day, and the time of day is the corresponding remainder.
* `Duration` is modelled as an `Int` nanosecond count.
  `Duration::num_nanoseconds` returns `None` when the count overflows
  `i64`; `num_days`/`num_weeks` truncate toward zero (Rust `/`), hence
  `Int.tdiv` below.
* Rust `usize`/`u64` values are modelled as `Nat`.  Where the source
  casts a possibly-negative signed value (`as usize`/`as u64`), the wrap
  is modelled exactly by `intCastU64` (two's-complement, 64-bit).  Where
  the source casts a float to an integer (`as usize`/`as u32`), the Rust
  saturating semantics (negative → 0, +inf → MAX, NaN → 0) are modelled
  case by case at the call site.
* Floating-point arithmetic is idealised as exact arithmetic on the
  rationals.  `week_per_point = ((total_weeks as f64) / (max_points as
  f64)).ceil()` is exact: the numerator is below `2^52` on `chrono`'s
  bounded date range, and oversized denominators only saturate.  The
  period engine's seed `10^(log10(total_ns as f64 / max_points as
  f64).floor())` is modelled with integer division; the float pipeline
  can disagree with that model when the quotient sits at a power-of-ten
  boundary (the `u64 → f64` cast rounds for `total_ns > 2^53`, and
  `log10` of a value half an ulp below `10^k` rounds to `k` exactly), but
  any such disagreement moves the floored exponent by at most one.
  Theorems about the engine therefore either take its output as a
  hypothesis (C1, C3) or keep a full decade of slack (C7), and its
  concrete evaluations sit far from every boundary.  The pixel `map`
  functions keep the idealisation as stated.
* Rust panics (integer division by zero, invalid `ymd` construction) are
  modelled by `Option`: `none` is a panic.
* `while` loops are encoded as structural recursion on an explicit fuel
  argument.  Each call site passes a fuel bound that dominates the number
  of iterations the loop can perform (justified in a comment at the
  definition), so the encoding computes exactly what the source loop
  computes; fuel exhaustion returns the current state and is unreachable
  at every call site used by a theorem.
-/

/-- Nanoseconds in one day (`3600_000_000_000 * 24`). -/
def nsPerDay : Nat := 86400000000000

/-- `chrono::Duration::num_nanoseconds`: `some` exactly when the signed
nanosecond count fits in `i64`. The argument is the duration in
nanoseconds. -/
def numNanoseconds (d : Int) : Option Int :=
  if -(2 ^ 63) ≤ d ∧ d < 2 ^ 63 then some d else none

/-- Rust `as u64` / `as usize` on a possibly negative signed integer:
two's-complement wrap into `[0, 2^64)`. -/
def intCastU64 (x : Int) : Nat := (Int.emod x (2 ^ 64)).toNat

/-- `((total_weeks as f64) / (max_points as f64)).ceil() as usize` from
`RangedDate::key_points`.  The float cases, modelled exactly:
nonpositive weeks give a nonpositive (or NaN) quotient, and the
float-to-int cast saturates to `0`; positive weeks with
`max_points = 0` give `+inf`, saturating to `usize::MAX`; otherwise the
quotient is the exact ceiling division (exact in `f64` for
`total_weeks < 2^52`, which `chrono`'s date range guarantees). -/
def weekPerPoint (totalWeeks : Int) (maxPoints : Nat) : Nat :=
  if totalWeeks ≤ 0 then 0
  else if maxPoints = 0 then 2 ^ 64 - 1
  else (totalWeeks.toNat + maxPoints - 1) / maxPoints

/-- `RangedDate::key_points`.  `b` and `e` are the day numbers of
`self.0` and `self.1`.  The three `for` loops over inclusive ranges
`0..=n` are modelled as maps over `List.range (n+1)` (and an inclusive
range with a negative upper bound is empty, hence the `(· + 1).toNat`
shape folded into the branch conditions, which require positivity
first).  The final branch divides `total_weeks as usize` by
`week_per_point`; when `week_per_point = 0` the Rust division panics,
modelled as `none`. -/
def rangedDateKeyPoints (b e : Int) (maxPoints : Nat) : Option (List Int) :=
  let totalDays := e - b
  let totalWeeks := Int.tdiv totalDays 7
  if 0 < totalDays ∧ totalDays.toNat ≤ maxPoints then
    some ((List.range (totalDays.toNat + 1)).map (fun (i : Nat) => b + (i : Int)))
  else if 0 < totalWeeks ∧ totalWeeks.toNat ≤ maxPoints then
    some ((List.range (totalWeeks.toNat + 1)).map (fun (i : Nat) => b + 7 * (i : Int)))
  else
    let wpp := weekPerPoint totalWeeks maxPoints
    if wpp = 0 then none
    else
      some ((List.range (totalWeeks.toNat / wpp + 1)).map
        (fun (i : Nat) => b + 7 * ((i * wpp : Nat) : Int)))

/-- `DescreteRanged::next_value` for `RangedDate`: one day forward. -/
def rangedDateNextValue (d : Int) : Int := d + 1

/-- `DescreteRanged::previous_value` for `RangedDate`: one day back. -/
def rangedDatePreviousValue (d : Int) : Int := d - 1

/-- Floor of the base-10 logarithm, by structural recursion (first
argument is fuel; `floorLog10` passes `n` itself, enough since the value
shrinks by a factor of 10 each step).  `floorLog10 0 = 0`, matching the
saturating `as u32` cast of `log10(0).floor() = -inf` in the source. -/
def floorLog10Go : Nat → Nat → Nat
  | 0, _ => 0
  | fuel + 1, n => if n < 10 then 0 else floorLog10Go fuel (n / 10) + 1

/-- `(x.log10().floor()) as u32` for the nonnegative values arising in
`compute_period_per_point`, modelled exactly (negative logs saturate to
`0`). -/
def floorLog10 (n : Nat) : Nat := floorLog10Go n n

/-- The `while` loop of `deterime_actual_ns_per_point` (sic).  State:
`actual` (the current base candidate) and `rem` (the units not yet
tried, starting at `units`); the loop tests
`total_ns / actual > max_points * units[idx]`, advancing to the next
unit, wrapping to `units[0]` with `actual * base` after the last, and
returns `units[idx] * actual` at the first failure.  Fuel exhaustion
(unreachable at the fuel passed by `deterimeActualNsPerPoint`) returns
the current candidate. -/
def deterimeGo (totalNs : Nat) (units : List Nat) (base maxPoints : Nat) :
    Nat → List Nat → Nat → Nat
  | actual, [], _ => actual
  | actual, u :: _, 0 => u * actual
  | actual, u :: rest, fuel + 1 =>
    if maxPoints * u < totalNs / actual then
      match rest with
      | [] => deterimeGo totalNs units base maxPoints (actual * base) units fuel
      | _ :: _ => deterimeGo totalNs units base maxPoints actual rest fuel
    else u * actual

/-- `deterime_actual_ns_per_point`.  The loop wraps (multiplying
`actual` by `base ≥ 10`) only while `total_ns / actual ≥ 1`, so it wraps
at most `log10 total_ns + 1` times and runs at most
`(log10 total_ns + 2) * units.length` iterations; the fuel passed below
dominates that for every input. -/
def deterimeActualNsPerPoint (totalNs actualNsPerPoint : Nat) (units : List Nat)
    (base : Nat) (maxPoints : Nat) : Nat :=
  deterimeGo totalNs units base maxPoints actualNsPerPoint units
    ((totalNs + 4) * (units.length + 1) * 2)

/-- `compute_period_per_point`.  `min_ns_per_point = total_ns as f64 /
max_points as f64` and the seed `10^(log10(min).floor() as u32)` are
modelled by `10 ^ floorLog10 (totalNs / maxPoints)` (integer division;
the negative-log and NaN cases saturate the cast to exponent `0`, as in
the source).  The float pipeline can deviate from this model at
power-of-ten quotient boundaries — the `u64 → f64` cast of `total_ns`
rounds above `2^53`, and a faithfully rounded `log10` evaluated half an
ulp below `10^k` returns `k` exactly — but each such effect is a tiny
relative perturbation, so the floored exponent the code computes differs
from the model's by at most one; every theorem below that constrains the
engine's output leaves at least that much slack, and every concrete
evaluation uses operands below `2^53` whose quotient's `log10` is far
from an integer.  (For `max_points = 0` the Rust code computes
`10u64.pow(u32::MAX)` and panics; that case is not modelled and every
theorem below assumes `1 ≤ maxPoints` where it matters.) -/
def computePeriodPerPoint (totalNs : Nat) (maxPoints : Nat) (subDaily : Bool) :
    Option Nat :=
  let actualNsPerPoint : Nat := 10 ^ floorLog10 (totalNs / maxPoints)
  if actualNsPerPoint < 1000000000 then
    some (deterimeActualNsPerPoint totalNs actualNsPerPoint [1, 2, 5] 10 maxPoints)
  else if actualNsPerPoint < 3600000000000 then
    some (deterimeActualNsPerPoint totalNs 1000000000 [1, 2, 5, 10, 15, 20, 30] 60 maxPoints)
  else if actualNsPerPoint < 3600000000000 * 24 then
    some (deterimeActualNsPerPoint totalNs 3600000000000 [1, 2, 4, 8, 12] 24 maxPoints)
  else if subDaily = false then
    if actualNsPerPoint < 3600000000000 * 24 * 10 then
      some (deterimeActualNsPerPoint totalNs (3600000000000 * 24) [1, 2, 5, 7] 10 maxPoints)
    else
      some (deterimeActualNsPerPoint totalNs (3600000000000 * 24 * 10) [1, 2, 5] 10 maxPoints)
  else none

/-- `TimeValue::date_floor` for a `DateTime` instant (as nanoseconds
since the epoch): its calendar date, i.e. the floor day number. -/
def dateFloorNs (t : Int) : Int := Int.fdiv t nsPerDay

/-- `TimeValue::date_ceil` for a `DateTime` instant: the date, plus one
day when `time().num_seconds_from_midnight() > 0`.  Note the source
tests whole seconds from midnight, so an instant a fraction of a second
past midnight still floors. -/
def dateCeilNs (t : Int) : Int :=
  if 0 < (Int.emod t nsPerDay).toNat / 1000000000 then Int.fdiv t nsPerDay + 1
  else Int.fdiv t nsPerDay

/-- The emission loop of `RangedDateTime::key_points`: starting from the
aligned tick, push and step by the period while strictly before `e`.
Fuel: the loop runs at most `(e - t).toNat / p + 1 ≤ (e - t).toNat + 1`
times (`p ≥ 1`), which the call site's fuel dominates. -/
def emitNsGo (e : Int) (p : Nat) : Int → Nat → List Int
  | _, 0 => []
  | t, fuel + 1 => if t < e then t :: emitNsGo e p (t + (p : Int)) fuel else []

/-- The first tick of `RangedDateTime::key_points`: `begin`'s
time-of-day rounded up to the next multiple of the period, attached to
`begin`'s calendar date via
`date_floor().and_time(NaiveTime::from_hms(0,0,0) + Duration::nanoseconds(...))`.
`chrono`'s `NaiveTime + Duration` wraps around midnight, modelled by the
`% nsPerDay`: a rounded value that reaches 24h lands back at the start
of `begin`'s own day, it does not carry into the next day. -/
def alignedStartTime (b : Int) (p : Nat) : Int :=
  let startTimeNs := (Int.emod b nsPerDay).toNat
  let aligned :=
    if 0 < startTimeNs % p then startTimeNs + (p - startTimeNs % p) else startTimeNs
  dateFloorNs b * nsPerDay + ((aligned % nsPerDay : Nat) : Int)

/-- `RangedDateTime::key_points`.  `b`, `e` are the endpoints in
nanoseconds since the epoch.  When the span's nanosecond count is
representable and the period-selection engine returns a period, emit
aligned ticks; otherwise behave like a `RangedDate` over
`[date_ceil(b), date_floor(e)]` with every date mapped to its midnight
(`and_hms(0,0,0)`, i.e. `· * nsPerDay`). -/
def rangedDateTimeKeyPoints (b e : Int) (maxPoints : Nat) : Option (List Int) :=
  let totalSpan := e - b
  match (numNanoseconds totalSpan).bind
      (fun totalNs => computePeriodPerPoint (intCastU64 totalNs) maxPoints true) with
  | some p =>
    let startTime := alignedStartTime b p
    some (emitNsGo e p startTime ((e - startTime).toNat + 1))
  | none =>
    (rangedDateKeyPoints (dateCeilNs b) (dateFloorNs e) maxPoints).map
      (fun l => l.map (fun d => d * nsPerDay))

/-- `ratTrunc q` is Rust's `as i32` float-to-int truncation toward zero,
idealised on exact rationals (saturation at the `i32` bounds is not
modelled; no theorem depends on it). -/
def ratTrunc (q : ℚ) : Int := Int.tdiv q.num q.den

/-- `Ranged::map` for `RangedDuration` (durations in nanoseconds).  The
nanosecond fast path applies when both the total span and the value
offset have representable nanosecond counts; when only the total span
does, the source returns `limit.1` (the upper pixel bound) directly;
otherwise both are reduced to whole days (truncation toward zero) first.
The float expression `f64::from(limit.1 - limit.0) * a / b + 1e-10` is
idealised as exact rational arithmetic. -/
def rangedDurationMap (b e v : Int) (limit : Int × Int) : Int :=
  let totalSpan := e - b
  let valueSpan := v - b
  match numNanoseconds totalSpan with
  | some totalNs =>
    match numNanoseconds valueSpan with
    | some valueNs =>
      limit.1 + ratTrunc ((((limit.2 - limit.1) * valueNs : Int) : ℚ) / ((totalNs : Int) : ℚ)
        + 1 / 10000000000)
    | none => limit.2
  | none =>
    let totalDays := Int.tdiv totalSpan nsPerDay
    let valueDays := Int.tdiv valueSpan nsPerDay
    limit.1 + ratTrunc ((((limit.2 - limit.1) * valueDays : Int) : ℚ) / ((totalDays : Int) : ℚ)
      + 1 / 10000000000)

/-- A calendar date, for the `Monthly`/`Yearly` decorators instantiated
at date-only values (where `date_ceil`/`date_floor` are the identity and
`earliest_after_date` returns the date itself). -/
structure CalDate where
  year : Int
  month : Nat
  day : Nat
deriving DecidableEq, Repr

/-- `chrono`'s proleptic-Gregorian leap-year rule. -/
def isLeapYear (y : Int) : Bool :=
  (Int.emod y 4 == 0 && Int.emod y 100 != 0) || Int.emod y 400 == 0

/-- Days in a calendar month (`0` for an invalid month number). -/
def daysInMonth (y : Int) (m : Nat) : Nat :=
  match m with
  | 1 => 31
  | 2 => if isLeapYear y then 29 else 28
  | 3 => 31
  | 4 => 30
  | 5 => 31
  | 6 => 30
  | 7 => 31
  | 8 => 31
  | 9 => 30
  | 10 => 31
  | 11 => 30
  | 12 => 31
  | _ => 0

/-- `TimeZone::ymd`: `some` for a valid calendar date, `none` models the
panic on an invalid one. -/
def ymd (y : Int) (m d : Nat) : Option CalDate :=
  if 1 ≤ m ∧ m ≤ 12 ∧ 1 ≤ d ∧ d ≤ daysInMonth y m then some ⟨y, m, d⟩ else none

/-- A well-formed calendar date. -/
def validCalDate (x : CalDate) : Prop :=
  1 ≤ x.month ∧ x.month ≤ 12 ∧ 1 ≤ x.day ∧ x.day ≤ daysInMonth x.year x.month

instance (x : CalDate) : Decidable (validCalDate x) := by
  unfold validCalDate; infer_instance

/-- Calendar order on dates (year, then month, then day). -/
def dateLE (a c : CalDate) : Prop :=
  a.year < c.year ∨ (a.year = c.year ∧
    (a.month < c.month ∨ (a.month = c.month ∧ a.day ≤ c.day)))

instance (a c : CalDate) : Decidable (dateLE a c) := by
  unfold dateLE; infer_instance

/-- `DescreteRanged::next_value` for `Monthly` at a date-only value:
advance one calendar month (carrying the year past December), keeping
the day of month; the `ymd` construction panics (`none`) when the target
month is shorter than that day. -/
def monthlyNextValue (x : CalDate) : Option CalDate :=
  let month := x.month + 1
  if month = 13 then ymd (x.year + 1) 1 x.day else ymd x.year month x.day

/-- `DescreteRanged::previous_value` for `Monthly` at a date-only value:
retreat one calendar month (borrowing the year before January), keeping
the day of month. -/
def monthlyPreviousValue (x : CalDate) : Option CalDate :=
  let month := x.month - 1
  if month = 0 then ymd (x.year - 1) 12 x.day else ymd x.year month x.day

/-- `DescreteRanged::next_value` for `Yearly`: `ymd(year + 1, 1, 1)`,
always a valid date, hence total. -/
def yearlyNextValue (x : CalDate) : CalDate := ⟨x.year + 1, 1, 1⟩

/-- `DescreteRanged::previous_value` for `Yearly`: `ymd(year - 1, 1, 1)`. -/
def yearlyPreviousValue (x : CalDate) : CalDate := ⟨x.year - 1, 1, 1⟩

/-- The `while` loop of `Monthly::key_points`'s inner
`generate_key_points`: push `ymd(start_year, start_month, 1)` while
`(start_year, start_month)` has not passed `(end_year, end_month)`, then
add `step` months, normalising a month `≥ 13` by carrying
`start_month / 12` years.  Months are nonnegative throughout
(`u32`-derived in the source), so `Nat` arithmetic is faithful.  Fuel:
for month-normalised inputs the guard is equivalent to
`12*start_year + start_month ≤ 12*end_year + end_month` and that linear
index grows by exactly `step ≥ 1` per iteration, so the call site's fuel
(two more than the index gap) dominates the iteration count. -/
def generateKeyPointsGo (step : Nat) (ey : Int) (em : Nat) :
    Int → Nat → Nat → List CalDate
  | _, _, 0 => []
  | sy, sm, fuel + 1 =>
    if ey > sy ∨ (ey = sy ∧ sm ≤ em) then
      ⟨sy, sm, 1⟩ ::
        (let sm2 := sm + step
         if 13 ≤ sm2 then generateKeyPointsGo step ey em (sy + (sm2 / 12 : Nat)) (sm2 % 12) fuel
         else generateKeyPointsGo step ey em sy sm2 fuel)
    else []

/-- `generate_key_points` of `Monthly::key_points` (the emitted value
`T::earliest_after_date(tz.ymd(y, m, 1))` is the date `(y, m, 1)` at the
date-only instantiation). -/
def generateKeyPoints (sy : Int) (sm : Nat) (ey : Int) (em : Nat) (step : Nat) :
    List CalDate :=
  generateKeyPointsGo step ey em sy sm
    ((12 * (ey - sy) + (em : Int) - (sm : Int)).toNat + 2)

/-- The `exp10` loop of `generate_yearly_keypoints`: starting from `1`,
multiply by `10` while `n / (exp10 * 10) > max_points`.  Fuel: the guard
forces `exp10 * 10 ≤ n`, so the loop runs at most `log10 n + 1` times;
the call site passes `n + 1`, which always dominates. -/
def findExp10Go (n maxPoints : Nat) : Nat → Nat → Nat
  | exp10, 0 => exp10
  | exp10, fuel + 1 =>
    if maxPoints < n / (exp10 * 10) then findExp10Go n maxPoints (exp10 * 10) fuel
    else exp10

/-- The `for try_freq in &[1, 2, 5, 10]` loop of
`generate_yearly_keypoints`: `freq` is the first multiplier of `exp10`
whose quotient fits the budget, defaulting to `10 * exp10` when none
does (the loop's last assignment). -/
def pickFreq (n maxPoints exp10 : Nat) : Nat :=
  if n / (exp10 * 1) ≤ maxPoints then 1 * exp10
  else if n / (exp10 * 2) ≤ maxPoints then 2 * exp10
  else if n / (exp10 * 5) ≤ maxPoints then 5 * exp10
  else 10 * exp10

/-- The step (in years) chosen by `generate_yearly_keypoints` for a span
of `n` full years and a budget of `maxPoints`. -/
def yearlyFreq (n maxPoints : Nat) : Nat :=
  pickFreq n maxPoints (findExp10Go n maxPoints 1 (n + 1))

/-- The emission loop of `generate_yearly_keypoints`: push
`ymd(start_year, start_month, 1)` while `start_year ≤ end_year`,
stepping by `freq` years.  Fuel: `freq ≥ 1`, so the call site's
`(end_year - start_year + 1).toNat + 1` dominates the iteration
count. -/
def emitYearsGo (sm : Nat) (freq : Nat) (ey : Int) : Int → Nat → List CalDate
  | _, 0 => []
  | sy, fuel + 1 =>
    if sy ≤ ey then ⟨sy, sm, 1⟩ :: emitYearsGo sm freq ey (sy + (freq : Int)) fuel
    else []

/-- `generate_yearly_keypoints`: decrement `end_year` when
`start_month > end_month`, compute the year count as
`(end_year - start_year + 1) as usize` (64-bit wrap on a negative
difference, faithful to the source's cast), pick the step, and emit. -/
def generateYearlyKeypoints (maxPoints : Nat) (sy : Int) (sm : Nat) (ey0 : Int)
    (em : Nat) : List CalDate :=
  let ey := if em < sm then ey0 - 1 else ey0
  let n := intCastU64 (ey - sy + 1)
  let freq := yearlyFreq n maxPoints
  emitYearsGo sm freq ey sy ((ey - sy + 1).toNat + 1)

/-- The bound normalisation shared by `Monthly::key_points` and
`Yearly::key_points`: at the date-only instantiation
`start_date = begin.date_ceil() = begin`, and when `start_date.day() ≠ 1`
the start advances to the first of the next month, carrying the year on
month 13.  Returns `(start_year, start_month)`. -/
def normalizeStart (b : CalDate) : Int × Nat :=
  if b.day ≠ 1 then
    (if b.month + 1 = 13 then (b.year + 1, 1) else (b.year, b.month + 1))
  else (b.year, b.month)

/-- `Monthly::key_points` at the date-only instantiation
(`end_date = end.date_floor() = end`).  `total_month` is the `i32`
`(end_year - start_year) * 12 + end_month - start_month` (exact on
`chrono`'s bounded year range), compared as `total_month as usize`
against the budget thresholds. -/
def monthlyKeyPoints (b e : CalDate) (maxPoints : Nat) : List CalDate :=
  let sy := (normalizeStart b).1
  let sm := (normalizeStart b).2
  let ey := e.year
  let em := e.month
  let totalMonth : Int := (ey - sy) * 12 + (em : Int) - (sm : Int)
  if intCastU64 totalMonth ≤ maxPoints then generateKeyPoints sy sm ey em 1
  else if intCastU64 totalMonth ≤ maxPoints * 3 then generateKeyPoints sy sm ey em 3
  else if intCastU64 totalMonth ≤ maxPoints * 6 then generateKeyPoints sy sm ey em 6
  else generateYearlyKeypoints maxPoints sy sm ey em

/-- `Yearly::key_points` at the date-only instantiation: the same bound
normalisation, then `generate_yearly_keypoints`. -/
def yearlyKeyPoints (b e : CalDate) (maxPoints : Nat) : List CalDate :=
  generateYearlyKeypoints maxPoints (normalizeStart b).1 (normalizeStart b).2
    e.year e.month

/-- Day number of a proleptic-Gregorian calendar date (epoch
`1970-01-01 = 0`); used only to name concrete dates in theorems about
the day-number model of `Date<Z>`. -/
def daysFromCivil (y : Int) (m d : Nat) : Int :=
  let yAdj := if m ≤ 2 then y - 1 else y
  let era := Int.fdiv yAdj 400
  let yoe := (yAdj - era * 400).toNat
  let doy := (153 * (if 2 < m then m - 3 else m + 9) + 2) / 5 + (d - 1)
  let doe := yoe * 365 + yoe / 4 - yoe / 100 + doy
  era * 146097 + (doe : Int) - 719468

/-! ## Supporting lemmas -/

/-- Truncating division of nonnegative integers agrees with `Nat`
division. -/
theorem tdiv_coe (m n : Nat) : Int.tdiv (m : Int) (n : Int) = ((m / n : Nat) : Int) := rfl

/-- Rewrite `Int.tdiv` on a nonnegative dividend through `toNat`. -/
theorem tdiv_nonneg_eq (a : Int) (b : Nat) (h : 0 ≤ a) :
    Int.tdiv a (b : Int) = ((a.toNat / b : Nat) : Int) := by
  rw [← Int.toNat_of_nonneg h, tdiv_coe]
  simp

/-- A map over `List.range` along a strictly monotone function is
strictly increasing. -/
theorem pairwise_range_map (n : Nat) (f : Nat → Int)
    (hf : ∀ i j, i < j → f i < f j) :
    ((List.range n).map f).Pairwise (· < ·) := by
  refine List.Pairwise.map f (fun a b h => h) ?_
  exact (List.pairwise_lt_range n).imp (fun {a b} h => hf a b h)

/-- Elements of the `RangedDateTime` emission loop lie in `[t, e)`. -/
theorem emitNsGo_mem {e : Int} {p : Nat} :
    ∀ {fuel : Nat} {t x : Int}, x ∈ emitNsGo e p t fuel → t ≤ x ∧ x < e
  | 0, t, x, hx => by simp [emitNsGo] at hx
  | fuel + 1, t, x, hx => by
    rw [emitNsGo] at hx
    by_cases h : t < e
    · rw [if_pos h] at hx
      rcases List.mem_cons.mp hx with rfl | hx
      · exact ⟨le_refl x, h⟩
      · have := emitNsGo_mem hx
        constructor <;> omega
    · rw [if_neg h] at hx
      simp at hx

/-- The `RangedDateTime` emission loop is strictly increasing when the
period is positive. -/
theorem emitNsGo_pairwise {e : Int} {p : Nat} (hp : 0 < p) :
    ∀ (fuel : Nat) (t : Int), (emitNsGo e p t fuel).Pairwise (· < ·)
  | 0, t => by simp [emitNsGo]
  | fuel + 1, t => by
    rw [emitNsGo]
    by_cases h : t < e
    · rw [if_pos h]
      refine List.pairwise_cons.mpr ⟨fun x hx => ?_, emitNsGo_pairwise hp fuel _⟩
      have := emitNsGo_mem hx
      omega
    · rw [if_neg h]; exact List.Pairwise.nil

/-- Consecutive elements of the `RangedDateTime` emission loop differ by
exactly the period. -/
theorem emitNsGo_chain_step {e : Int} {p : Nat} :
    ∀ (fuel : Nat) (t : Int), (emitNsGo e p t fuel).Chain' (fun a c => c = a + (p : Int))
  | 0, t => by simp [emitNsGo]
  | fuel + 1, t => by
    rw [emitNsGo]
    by_cases h : t < e
    · rw [if_pos h]
      refine List.chain'_cons'.mpr ⟨fun y hy => ?_, emitNsGo_chain_step fuel _⟩
      cases fuel with
      | zero => simp [emitNsGo] at hy
      | succ f =>
        rw [emitNsGo] at hy
        by_cases h2 : t + (p : Int) < e
        · rw [if_pos h2] at hy
          simp at hy
          omega
        · rw [if_neg h2] at hy
          simp at hy
    · rw [if_neg h]; exact List.chain'_nil

/-- The emission loop starts at its seed when the seed is below `e`. -/
theorem emitNsGo_head {e : Int} {p : Nat} {fuel : Nat} {t : Int}
    (h : t < e) (hf : 0 < fuel) : (emitNsGo e p t fuel).head? = some t := by
  cases fuel with
  | zero => omega
  | succ f => rw [emitNsGo, if_pos h]; rfl

/-- The emission loop is empty when the seed is at or past `e`. -/
theorem emitNsGo_empty {e : Int} {p : Nat} {fuel : Nat} {t : Int}
    (h : e ≤ t) : emitNsGo e p t fuel = [] := by
  cases fuel with
  | zero => rfl
  | succ f => rw [emitNsGo, if_neg (by omega)]

/-- The `deterime` loop returns a positive candidate from positive
state. -/
theorem deterimeGo_pos {totalNs base maxPoints : Nat} {units : List Nat}
    (hb : 0 < base) (hu : ∀ u ∈ units, 0 < u) :
    ∀ (fuel : Nat) (rem : List Nat) (actual : Nat), (∀ u ∈ rem, 0 < u) → 0 < actual →
      0 < deterimeGo totalNs units base maxPoints actual rem fuel
  | 0, [], actual, _, ha => by simp only [deterimeGo]; exact ha
  | 0, u :: rest, actual, hr, ha => by
    simp only [deterimeGo]
    exact Nat.mul_pos (hr u (List.mem_cons_self u rest)) ha
  | fuel + 1, [], actual, _, ha => by simp only [deterimeGo]; exact ha
  | fuel + 1, u :: rest, actual, hr, ha => by
    simp only [deterimeGo]
    split
    · cases rest with
      | nil => exact deterimeGo_pos hb hu fuel units (actual * base) hu (Nat.mul_pos ha hb)
      | cons v tl =>
        exact deterimeGo_pos hb hu fuel (v :: tl) actual
          (fun w hw => hr w (List.mem_cons_of_mem u hw)) ha
    · exact Nat.mul_pos (hr u (List.mem_cons_self u rest)) ha

/-- Any period returned by the period-selection engine is positive. -/
theorem computePeriodPerPoint_pos {totalNs maxPoints : Nat} {sd : Bool} {p : Nat}
    (h : computePeriodPerPoint totalNs maxPoints sd = some p) : 0 < p := by
  simp only [computePeriodPerPoint, deterimeActualNsPerPoint] at h
  split_ifs at h <;> simp only [Option.some.injEq] at h <;> subst h <;>
    refine deterimeGo_pos (by norm_num) ?_ _ _ _ ?_ (by positivity) <;>
    (intro u hu; fin_cases hu <;> norm_num)

/-- Lower bound from the floored base-10 logarithm (fuel version). -/
theorem floorLog10Go_le :
    ∀ (fuel q : Nat), q ≤ fuel → 1 ≤ q → 10 ^ floorLog10Go fuel q ≤ q
  | 0, q, hq, h1 => by omega
  | fuel + 1, q, hq, h1 => by
    rw [floorLog10Go]
    by_cases h : q < 10
    · rw [if_pos h]; simpa using h1
    · rw [if_neg h]
      have hdiv : q / 10 < q := Nat.div_lt_self (by omega) (by omega)
      have h10 : 1 ≤ q / 10 := Nat.one_le_div_iff (by omega) |>.mpr (by omega)
      have := floorLog10Go_le fuel (q / 10) (by omega) h10
      calc 10 ^ (floorLog10Go fuel (q / 10) + 1)
          = 10 * 10 ^ floorLog10Go fuel (q / 10) := by ring
        _ ≤ 10 * (q / 10) := by omega
        _ ≤ q := Nat.mul_div_le q 10

/-- Upper bound from the floored base-10 logarithm (fuel version). -/
theorem floorLog10Go_lt :
    ∀ (fuel q : Nat), q ≤ fuel → q < 10 ^ (floorLog10Go fuel q + 1)
  | 0, q, hq => by simp [floorLog10Go]; omega
  | fuel + 1, q, hq => by
    rw [floorLog10Go]
    by_cases h : q < 10
    · rw [if_pos h]; simpa using h
    · rw [if_neg h]
      have hdiv : q / 10 < q := Nat.div_lt_self (by omega) (by omega)
      have ih := floorLog10Go_lt fuel (q / 10) (by omega)
      have hmod := Nat.div_add_mod q 10
      have hm : q % 10 < 10 := Nat.mod_lt q (by omega)
      calc q = 10 * (q / 10) + q % 10 := hmod.symm
        _ < 10 * (q / 10 + 1) := by omega
        _ ≤ 10 * 10 ^ (floorLog10Go fuel (q / 10) + 1) := by
            have : q / 10 + 1 ≤ 10 ^ (floorLog10Go fuel (q / 10) + 1) := by omega
            omega
        _ = 10 ^ (floorLog10Go fuel (q / 10) + 1 + 1) := by ring

/-- `10 ^ floorLog10 q ≤ q` for positive `q`. -/
theorem pow_floorLog10_le {q : Nat} (h : 1 ≤ q) : 10 ^ floorLog10 q ≤ q :=
  floorLog10Go_le q q (le_refl q) h

/-- `q < 10 ^ (floorLog10 q + 1)`. -/
theorem floorLog10_lt (q : Nat) : q < 10 ^ (floorLog10 q + 1) :=
  floorLog10Go_lt q q (le_refl q)

/-! ## Claim C2 -/

/-- Claim C2 (refuted; the spec's totality statement is the intent, the
code is the slip): `RangedDate::key_points` on the well-formed 3-day
interval `[0, 3)` with `max_points = 2` skips both the daily branch
(`3 > 2`) and the weekly branch (`total_weeks = 0`), computes
`week_per_point = ceil(0 / 2) = 0`, and then evaluates
`total_weeks as usize / week_per_point` — an integer division by zero,
i.e. a panic, modelled as `none`. -/
theorem c2_key_points_div_by_zero : rangedDateKeyPoints 0 3 2 = none := by decide

/-! ## Claim C10 -/

/-- Claim C10 (confirmed): whenever the total span's nanosecond count is
representable but the value offset's is not, `RangedDuration::map`
returns exactly the upper pixel bound `hi`, without touching the
day-precision fallback. -/
theorem c10_duration_map_overflow (b e v lo hi : Int) (tns : Int)
    (h1 : numNanoseconds (e - b) = some tns)
    (h2 : numNanoseconds (v - b) = none) :
    rangedDurationMap b e v (lo, hi) = hi := by
  simp only [rangedDurationMap]
  rw [h1, h2]

/-- Witness for C10: span `10^18` ns is `i64`-representable, offset
`10^19` ns is not, and `map` returns the upper bound `97`. -/
theorem c10_witness : rangedDurationMap 0 1000000000000000000 10000000000000000000 (3, 97) = 97 :=
  c10_duration_map_overflow 0 1000000000000000000 10000000000000000000 3 97
    1000000000000000000 (by decide) (by decide)

/-! ## Claim C7 -/

/-- Counterexample to C7 as stated: with `sub_daily = true`, a span of
two days (`172_800_000_000_000 ns > one day`) and `max_points = 10^9`,
`compute_period_per_point` returns `Some 200_000`, not `None` — the
seeded candidate `10^5` lands in the sub-second regime because the span
per point is small. -/
theorem c7_counterexample :
    computePeriodPerPoint 172800000000000 1000000000 true = some 200000 ∧
      86400000000000 < 172800000000000 := by
  constructor
  · decide
  · decide

/-- Claim C7 (amended): for `max_points ≥ 1` and `sub_daily = true`, a
span exceeding one day does not force `None` (see the counterexample);
in the other direction, `None` is returned only when the span-per-point
has reached the daily regime: the integer quotient
`total_ns / max_points` is then at least `10^13`, and in particular the
span itself strictly exceeds one day.  (In the model `None` in fact
forces a quotient of `10^14`; the stated bound keeps a full decade of
slack so that it also holds of the float pipeline, whose floored
exponent can differ from the model's by at most one at a power-of-ten
boundary.) -/
theorem c7_period_none_only_beyond_day (totalNs maxPoints : Nat)
    (_hmax : 1 ≤ maxPoints)
    (h : computePeriodPerPoint totalNs maxPoints true = none) :
    10000000000000 ≤ totalNs / maxPoints ∧ 86400000000000 < totalNs := by
  have powDay : ∀ L : Nat, 86400000000000 ≤ 10 ^ L → 14 ≤ L := by
    intro L hle
    by_contra hc
    push_neg at hc
    have := Nat.pow_le_pow_right (show 1 ≤ 10 by norm_num) (show L ≤ 13 by omega)
    norm_num at this
    omega
  have hA : 86400000000000 ≤ 10 ^ floorLog10 (totalNs / maxPoints) := by
    simp only [computePeriodPerPoint] at h
    split_ifs at h <;> omega
  have hL : 14 ≤ floorLog10 (totalNs / maxPoints) := powDay _ hA
  have hq0 : totalNs / maxPoints ≠ 0 := by
    intro hz
    rw [hz] at hL
    norm_num [floorLog10, floorLog10Go] at hL
  have hle := pow_floorLog10_le (Nat.pos_of_ne_zero hq0)
  have h14 : (10 : Nat) ^ 14 ≤ 10 ^ floorLog10 (totalNs / maxPoints) :=
    Nat.pow_le_pow_right (by norm_num) hL
  norm_num at h14
  have hqle : totalNs / maxPoints ≤ totalNs := Nat.div_le_self _ _
  constructor <;> omega

/-- Witness for C7 (amended): `total_ns = 10^15`, `max_points = 1` — a
quotient of exactly `10^15` (a value whose `log10` every float pipeline
computes exactly) makes the engine return `None`, and the theorem yields
that the span exceeds one day. -/
theorem c7_witness :
    computePeriodPerPoint 1000000000000000 1 true = none ∧
      86400000000000 < 1000000000000000 := by
  refine ⟨by decide, ?_⟩
  exact (c7_period_none_only_beyond_day 1000000000000000 1 (by norm_num) (by decide)).2

/-! ## Claim C9 -/

/-- Counterexample to C9 as stated: for the `Yearly` discrete coordinate
and the mid-year date `2021-06-15` (not a day-of-month > 28 edge case),
`next_value(previous_value(x))` is `2021-01-01`, not `x`: both stepping
functions pin the result to January 1st. -/
theorem c9_counterexample :
    yearlyNextValue (yearlyPreviousValue ⟨2021, 6, 15⟩) ≠ ⟨2021, 6, 15⟩ := by
  decide

/-- Claim C9 (amended): the discrete round-trips hold for the `Date`
coordinate at every value; for the `Monthly` coordinate at every valid
date-only value except exactly the documented edge cases — the
round-trip through `previous_value` asks only that the previous month be
no shorter than the value's day of month, and the round-trip through
`next_value` asks the same of the next month (so e.g. `2021-04-30`
round-trips both ways, while day-of-month > 28 crossing a shorter month
panics in the `ymd` reconstruction); and for the `Yearly` coordinate
only at the January-1 values its stepping functions produce — a mid-year
value is not recovered (see the counterexample). -/
theorem c9_discrete_roundtrip :
    (∀ d : Int, rangedDateNextValue (rangedDatePreviousValue d) = d ∧
      rangedDatePreviousValue (rangedDateNextValue d) = d) ∧
    (∀ x : CalDate, validCalDate x →
      (x.day ≤ daysInMonth (if x.month = 1 then x.year - 1 else x.year)
          (if x.month = 1 then 12 else x.month - 1) →
        (monthlyPreviousValue x).bind monthlyNextValue = some x) ∧
      (x.day ≤ daysInMonth (if x.month = 12 then x.year + 1 else x.year)
          (if x.month = 12 then 1 else x.month + 1) →
        (monthlyNextValue x).bind monthlyPreviousValue = some x)) ∧
    (∀ y : Int, yearlyNextValue (yearlyPreviousValue ⟨y, 1, 1⟩) = ⟨y, 1, 1⟩ ∧
      yearlyPreviousValue (yearlyNextValue ⟨y, 1, 1⟩) = ⟨y, 1, 1⟩) := by
  refine ⟨fun d => ?_, fun x hval => ?_, fun y => ?_⟩
  · constructor <;> simp [rangedDateNextValue, rangedDatePreviousValue]
  · obtain ⟨y, m, d⟩ := x
    obtain ⟨h1, h2, h3, h4⟩ := hval
    simp only at h1 h2 h3 h4
    have hymd : ∀ (y' : Int) (m' : Nat), 1 ≤ m' → m' ≤ 12 → d ≤ daysInMonth y' m' →
        ymd y' m' d = some ⟨y', m', d⟩ := by
      intro y' m' hm1 hm2 hd
      rw [ymd, if_pos ⟨hm1, hm2, h3, hd⟩]
    interval_cases m <;>
      constructor <;>
      intro hpd <;>
      norm_num at hpd h4 <;>
      simp [monthlyPreviousValue, monthlyNextValue, hymd, hpd, h4]
  · constructor <;> simp [yearlyNextValue, yearlyPreviousValue]

/-- Witness for C9 (amended): the round-trips at `day 5` for `Date`, at
`2021-04-30` (day 30, both adjacent months 31 days long — a value the
original claim covers and a `day ≤ 28` bound would miss) for `Monthly`
in both directions, and at `2021-01-01` for `Yearly`. -/
theorem c9_witness :
    rangedDateNextValue (rangedDatePreviousValue 5) = 5 ∧
    (monthlyPreviousValue ⟨2021, 4, 30⟩).bind monthlyNextValue = some ⟨2021, 4, 30⟩ ∧
    (monthlyNextValue ⟨2021, 4, 30⟩).bind monthlyPreviousValue = some ⟨2021, 4, 30⟩ ∧
    yearlyNextValue (yearlyPreviousValue ⟨2021, 1, 1⟩) = ⟨2021, 1, 1⟩ := by
  have h := c9_discrete_roundtrip
  refine ⟨(h.1 5).1, ?_, ?_, (h.2.2 2021).1⟩
  · exact (h.2.1 ⟨2021, 4, 30⟩ (by decide)).1 (by decide)
  · exact (h.2.1 ⟨2021, 4, 30⟩ (by decide)).2 (by decide)

/-! ## Claim C8 -/

/-- Counterexample to C8 as stated: `RangedDate::key_points` over a
21-day interval with `max_points = 0` returns the singleton `[begin]`,
not an empty sequence (the float `total_weeks / 0.0 = +inf` ceiling
saturates to `usize::MAX`, so exactly one tick is emitted). -/
theorem c8_counterexample : rangedDateKeyPoints 0 21 0 = some [0] := by decide

/-- Claim C8 (amended): with `max_points = 0` the `Date` coordinate does
not return an empty sequence: an interval of at least one full week (and
below the saturation bound `7 * (2^64 - 1)` days, far beyond `chrono`'s
range) yields the single key point `begin` without dividing by zero,
while a nonempty interval shorter than one week divides
`total_weeks as usize = 0` by `week_per_point = 0` — a panic (`none`). -/
theorem c8_max_points_zero :
    (∀ b e : Int, 7 ≤ e - b → e - b < 7 * (2 ^ 64 - 1) →
      rangedDateKeyPoints b e 0 = some [b]) ∧
    (∀ b e : Int, 0 < e - b → e - b < 7 → rangedDateKeyPoints b e 0 = none) := by
  constructor
  · intro b e h1 h2
    have hw : Int.tdiv (e - b) 7 = (((e - b).toNat / 7 : Nat) : Int) :=
      tdiv_nonneg_eq (e - b) 7 (by omega)
    simp only [rangedDateKeyPoints, hw, Int.toNat_natCast]
    set k : Nat := (e - b).toNat / 7 with hk
    have hk1 : 1 ≤ k := by rw [hk]; omega
    have hklt : k < 2 ^ 64 - 1 := by rw [hk]; omega
    have hwpp : weekPerPoint (k : Int) 0 = 2 ^ 64 - 1 := by
      rw [weekPerPoint, if_neg (by omega), if_pos rfl]
    rw [if_neg (by omega), if_neg (by omega), hwpp, if_neg (by norm_num),
      Nat.div_eq_of_lt hklt]
    rw [show List.range 1 = [0] from rfl]
    simp
  · intro b e h1 h2
    have hw : Int.tdiv (e - b) 7 = (((e - b).toNat / 7 : Nat) : Int) :=
      tdiv_nonneg_eq (e - b) 7 (by omega)
    have hz : (e - b).toNat / 7 = 0 := by omega
    simp only [rangedDateKeyPoints, hw, hz, Nat.cast_zero]
    rw [if_neg (by omega), if_neg (by simp), if_pos (by decide)]

/-- Witness for C8 (amended): a 28-day interval starting at day 2 gives
the single point `[2]`, and a 4-day interval starting at day 2 panics
(`none`). -/
theorem c8_witness :
    rangedDateKeyPoints 2 30 0 = some [2] ∧ rangedDateKeyPoints 2 6 0 = none := by
  constructor
  · exact c8_max_points_zero.1 2 30 (by norm_num) (by norm_num)
  · exact c8_max_points_zero.2 2 6 (by norm_num) (by norm_num)

/-! ## Claim C1 -/

/-- Positive truncating quotient by 7 forces a nonnegative dividend. -/
theorem tdiv_pos_dividend {d : Int} (h : 0 < Int.tdiv d 7) : 0 ≤ d := by
  by_contra hc
  push_neg at hc
  have h2 : Int.tdiv d 7 = -Int.tdiv (-d) 7 := by
    rw [← Int.neg_tdiv, neg_neg]
  have h3 : 0 ≤ Int.tdiv (-d) 7 := Int.tdiv_nonneg (by omega) (by norm_num)
  omega

/-- Soundness of the `Date` key points: whenever `key_points` returns
(does not panic), the list is strictly increasing and bounded by the
interval endpoints — the right endpoint inclusively. -/
theorem rangedDateKeyPoints_sound {b e : Int} {maxPoints : Nat} {l : List Int}
    (h : rangedDateKeyPoints b e maxPoints = some l) :
    l.Pairwise (· < ·) ∧ ∀ x ∈ l, b ≤ x ∧ x ≤ e := by
  have hw : Int.tdiv (e - b) 7 = (((e - b).toNat / 7 : Nat) : Int) ∨ e - b < 0 := by
    by_cases hnn : 0 ≤ e - b
    · exact Or.inl (tdiv_nonneg_eq (e - b) 7 hnn)
    · exact Or.inr (by omega)
  simp only [rangedDateKeyPoints] at h
  split_ifs at h with h1 h2 h3
  · simp only [Option.some.injEq] at h
    subst h
    refine ⟨pairwise_range_map _ (fun (i : Nat) => b + (i : Int))
      (fun i j hij => by show b + (i : Int) < b + (j : Int); omega), ?_⟩
    intro x hx
    obtain ⟨i, hi, rfl⟩ := List.mem_map.mp hx
    rw [List.mem_range] at hi
    constructor <;> omega
  · have hnn : 0 ≤ e - b := tdiv_pos_dividend h2.1
    have hw' : Int.tdiv (e - b) 7 = (((e - b).toNat / 7 : Nat) : Int) :=
      hw.resolve_right (by omega)
    rw [hw'] at h2 h
    simp only [Option.some.injEq] at h
    subst h
    refine ⟨pairwise_range_map _ (fun (i : Nat) => b + 7 * (i : Int))
      (fun i j hij => by show b + 7 * (i : Int) < b + 7 * (j : Int); omega), ?_⟩
    intro x hx
    obtain ⟨i, hi, rfl⟩ := List.mem_map.mp hx
    rw [List.mem_range] at hi
    have h7 : 7 * ((e - b).toNat / 7) ≤ (e - b).toNat := by omega
    constructor <;> omega
  · have hwpos : 0 < Int.tdiv (e - b) 7 := by
      by_contra hc
      push_neg at hc
      exact h3 (by rw [weekPerPoint, if_pos hc])
    have hnn : 0 ≤ e - b := tdiv_pos_dividend hwpos
    have hw' : Int.tdiv (e - b) 7 = (((e - b).toNat / 7 : Nat) : Int) :=
      hw.resolve_right (by omega)
    have hwpp : 0 < weekPerPoint (Int.tdiv (e - b) 7) maxPoints := Nat.pos_of_ne_zero h3
    rw [hw'] at h hwpos hwpp
    simp only [Option.some.injEq, Int.toNat_natCast] at h
    subst h
    set wpp := weekPerPoint (((e - b).toNat / 7 : Nat) : Int) maxPoints with hwppdef
    refine ⟨pairwise_range_map _ (fun (i : Nat) => b + 7 * ((i * wpp : Nat) : Int))
      (fun i j hij => ?_), ?_⟩
    · show b + 7 * ((i * wpp : Nat) : Int) < b + 7 * ((j * wpp : Nat) : Int)
      have : i * wpp < j * wpp := (Nat.mul_lt_mul_right hwpp).mpr hij
      omega
    · intro x hx
      obtain ⟨i, hi, rfl⟩ := List.mem_map.mp hx
      rw [List.mem_range] at hi
      have hile : i * wpp ≤ (e - b).toNat / 7 :=
        (Nat.le_div_iff_mul_le hwpp).mp (by omega)
      have h7 : 7 * ((e - b).toNat / 7) ≤ (e - b).toNat := by omega
      constructor <;> omega

/-- Soundness of the `DateTime` key points: whenever `key_points`
returns (does not panic), the list is strictly increasing and never
exceeds `end` (the sub-daily branch stays strictly below it; the date
fallback can land exactly on a midnight `end`). -/
theorem rangedDateTimeKeyPoints_sound {b e : Int} {maxPoints : Nat} {l : List Int}
    (h : rangedDateTimeKeyPoints b e maxPoints = some l) :
    l.Pairwise (· < ·) ∧ ∀ x ∈ l, x ≤ e := by
  simp only [rangedDateTimeKeyPoints] at h
  rcases hcp : (numNanoseconds (e - b)).bind
      (fun totalNs => computePeriodPerPoint (intCastU64 totalNs) maxPoints true) with _ | p
  · rw [hcp] at h
    rw [Option.map_eq_some'] at h
    obtain ⟨dl, hdl, rfl⟩ := h
    have hs := rangedDateKeyPoints_sound hdl
    constructor
    · exact List.Pairwise.map _ (fun {a c} (h2 : a < c) => by
        have hD : (0 : Int) < (nsPerDay : Int) := by norm_num [nsPerDay]
        exact mul_lt_mul_of_pos_right h2 hD) hs.1
    · intro x hx
      obtain ⟨d, hd, rfl⟩ := List.mem_map.mp hx
      have hub : d ≤ dateFloorNs e := (hs.2 d hd).2
      have hD : (0 : Int) ≤ (nsPerDay : Int) := by norm_num [nsPerDay]
      calc d * (nsPerDay : Int) ≤ dateFloorNs e * (nsPerDay : Int) :=
            mul_le_mul_of_nonneg_right hub hD
        _ = e / (nsPerDay : Int) * (nsPerDay : Int) := by
            rw [dateFloorNs, Int.fdiv_eq_ediv e (by norm_num [nsPerDay])]
        _ ≤ e := Int.ediv_mul_le e (by norm_num [nsPerDay])
  · rw [hcp] at h
    simp only [Option.some.injEq] at h
    subst h
    have hp : 0 < p := by
      rw [Option.bind_eq_some] at hcp
      obtain ⟨tns, _, h2⟩ := hcp
      exact computePeriodPerPoint_pos h2
    exact ⟨emitNsGo_pairwise hp _ _, fun x hx => le_of_lt (emitNsGo_mem hx).2⟩

/-- Counterexample to C1 as stated: the `Date` coordinate over the
one-day interval `[0, 1)` with `max_points = 1` emits `[0, 1]` — the
daily branch iterates `0..=total_days`, so the element `1 = end` is
emitted, and `end` does not lie in the half-open `[begin, end)`. -/
theorem c1_counterexample :
    rangedDateKeyPoints 0 1 1 = some [0, 1] ∧ ¬((1 : Int) < 1) := by
  constructor
  · decide
  · omega

/-- Claim C1 (amended, for the two coordinates the claim's code sources
name): whenever `key_points` returns (does not panic), its output is
strictly increasing; for `Date` every element lies in the closed
interval `[begin, end]` (the daily and weekly branches can emit `end`
itself), and for `DateTime` (with a nonzero point budget, where the
embedding is faithful) every element is at most `end` — the sub-daily
branch stays strictly below `end` but its first elements can even
precede `begin` (see the C3 counterexample), so no lower bound holds. -/
theorem c1_key_points_ordering :
    (∀ (b e : Int) (maxPoints : Nat) (l : List Int),
      rangedDateKeyPoints b e maxPoints = some l →
        l.Pairwise (· < ·) ∧ ∀ x ∈ l, b ≤ x ∧ x ≤ e) ∧
    (∀ (b e : Int) (maxPoints : Nat) (l : List Int), 1 ≤ maxPoints →
      rangedDateTimeKeyPoints b e maxPoints = some l →
        l.Pairwise (· < ·) ∧ ∀ x ∈ l, x ≤ e) :=
  ⟨fun _ _ _ _ h => rangedDateKeyPoints_sound h,
   fun _ _ _ _ _ h => rangedDateTimeKeyPoints_sound h⟩

/-- Witness for C1 (amended): the `Date` part at `[0, 3)` with budget 5
(list `[0, 1, 2, 3]`) and the `DateTime` part at the 10-hour interval of
the C3 scenario. -/
theorem c1_witness :
    (([0, 1, 2, 3] : List Int).Pairwise (· < ·) ∧
      ∀ x ∈ ([0, 1, 2, 3] : List Int), (0 : Int) ≤ x ∧ x ≤ 3) ∧
    (([0, 43200000000000, 86400000000000] : List Int).Pairwise (· < ·) ∧
      ∀ x ∈ ([0, 43200000000000, 86400000000000] : List Int),
        x ≤ (118800000000000 : Int)) := by
  constructor
  · exact c1_key_points_ordering.1 0 3 5 [0, 1, 2, 3] (by decide)
  · exact c1_key_points_ordering.2 82800000000000 118800000000000 1
      [0, 43200000000000, 86400000000000] (by norm_num) (by decide)

/-! ## Claim C3 -/

/-- Counterexample to C3 as stated: `begin = day 0 at 23:00`,
`end = begin + 10h`, `max_points = 1`.  The engine picks `p = 12h`;
rounding 23:00 up to the next multiple of 12h gives 24h, which `chrono`'s
`NaiveTime + Duration` wraps back to 00:00 of `begin`'s *own* day instead
of carrying into the next day.  The first emitted element is therefore
midnight of day 0 — strictly *before* `begin` — not the earliest aligned
instant at or after `begin` (which would be midnight of day 1). -/
theorem c3_counterexample :
    rangedDateTimeKeyPoints 82800000000000 118800000000000 1 =
      some [0, 43200000000000, 86400000000000] ∧
    (0 : Int) < 82800000000000 := by
  exact ⟨by decide, by norm_num⟩

/-- Claim C3 (amended): when the span is nanosecond-representable and
the engine returns a period `p`, the emitted sequence starts (when
nonempty) at `alignedStartTime b p` — `begin`'s time of day rounded up
to the next multiple of `p` and taken modulo 24 hours on `begin`'s own
calendar date, i.e. wrapping at midnight rather than carrying into the
next day — each subsequent element is exactly `p` nanoseconds after the
previous one, and every element is strictly before `end`. -/
theorem c3_datetime_alignment (b e : Int) (maxPoints : Nat) (tns : Int) (p : Nat)
    (h1 : numNanoseconds (e - b) = some tns)
    (h2 : computePeriodPerPoint (intCastU64 tns) maxPoints true = some p)
    (l : List Int) (h3 : rangedDateTimeKeyPoints b e maxPoints = some l) :
    (alignedStartTime b p < e → l.head? = some (alignedStartTime b p)) ∧
    (e ≤ alignedStartTime b p → l = []) ∧
    l.Chain' (fun a c => c = a + (p : Int)) ∧
    ∀ x ∈ l, x < e := by
  rw [rangedDateTimeKeyPoints] at h3
  simp only [h1, Option.some_bind, h2, Option.some.injEq] at h3
  subst h3
  refine ⟨fun hlt => emitNsGo_head hlt (by omega), fun hge => emitNsGo_empty hge,
    emitNsGo_chain_step _ _, fun x hx => (emitNsGo_mem hx).2⟩

/-- Witness for C3 (amended), at the counterexample's interval: aligned
start `0`, period 12h, three ticks spaced exactly 12h, all below `end`. -/
theorem c3_witness :
    ([0, 43200000000000, 86400000000000] : List Int).head? = some 0 ∧
    ([0, 43200000000000, 86400000000000] : List Int).Chain'
      (fun a c => c = a + ((43200000000000 : Nat) : Int)) ∧
    ∀ x ∈ ([0, 43200000000000, 86400000000000] : List Int),
      x < (118800000000000 : Int) := by
  have h := c3_datetime_alignment 82800000000000 118800000000000 1 36000000000000
    43200000000000 (by decide) (by decide) [0, 43200000000000, 86400000000000] (by decide)
  have h0 : alignedStartTime 82800000000000 43200000000000 = 0 := by decide
  refine ⟨?_, h.2.2.1, h.2.2.2⟩
  have hh := h.1 (by rw [h0]; norm_num)
  rw [h0] at hh
  exact hh

/-! ## Claim C6 -/

/-- Claim C6 (confirmed): when the total day count `D` satisfies
`0 < D ≤ max_points`, the `Date` coordinate emits one point per day
from `begin` through `begin + D` (`D + 1` points, the last being `end`
itself, exactly as the claim lists them); in particular
`2021-01-01 .. 2021-01-10` (9 days) with `max_points = 20` yields the
ten dates `2021-01-01` through `2021-01-10`. -/
theorem c6_daily_key_points :
    (∀ (b e : Int) (maxPoints : Nat), 0 < e - b → (e - b).toNat ≤ maxPoints →
      rangedDateKeyPoints b e maxPoints =
        some ((List.range ((e - b).toNat + 1)).map (fun (i : Nat) => b + (i : Int)))) ∧
    rangedDateKeyPoints (daysFromCivil 2021 1 1) (daysFromCivil 2021 1 10) 20 =
      some [daysFromCivil 2021 1 1, daysFromCivil 2021 1 2, daysFromCivil 2021 1 3,
        daysFromCivil 2021 1 4, daysFromCivil 2021 1 5, daysFromCivil 2021 1 6,
        daysFromCivil 2021 1 7, daysFromCivil 2021 1 8, daysFromCivil 2021 1 9,
        daysFromCivil 2021 1 10] := by
  constructor
  · intro b e maxPoints h1 h2
    simp only [rangedDateKeyPoints]
    rw [if_pos ⟨h1, h2⟩]
  · decide

/-- Witness for C6: the 9-day interval `[0, 9]` of day numbers with
budget 20 emits the ten days `0..9`. -/
theorem c6_witness : rangedDateKeyPoints 0 9 20 = some [0, 1, 2, 3, 4, 5, 6, 7, 8, 9] := by
  have h := c6_daily_key_points.1 0 9 20 (by norm_num) (by norm_num)
  rw [h]
  decide

/-! ## Claim C5 -/

/-- Characterisation of the `exp10` search: starting from `e ≥ 1` with
enough fuel, it returns the first `e * 10^j` (in increasing `j`) whose
ten-fold multiple brings the quotient within the budget. -/
theorem findExp10Go_spec (n maxPoints : Nat) :
    ∀ (fuel e : Nat), 1 ≤ e → n < e * 10 ^ fuel →
      ∃ j, findExp10Go n maxPoints e fuel = e * 10 ^ j ∧
        n / (e * 10 ^ j * 10) ≤ maxPoints ∧
        ∀ i < j, maxPoints < n / (e * 10 ^ i * 10)
  | 0, e, he, hlt => by
    refine ⟨0, by simp [findExp10Go], ?_, by omega⟩
    simp only [pow_zero, mul_one]
    simp only [pow_zero, mul_one] at hlt
    have : n / (e * 10) = 0 := Nat.div_eq_of_lt (by omega)
    omega
  | fuel + 1, e, he, hlt => by
    rw [findExp10Go]
    by_cases hc : maxPoints < n / (e * 10)
    · rw [if_pos hc]
      obtain ⟨j, hj1, hj2, hj3⟩ := findExp10Go_spec n maxPoints fuel (e * 10)
        (by omega) (by rw [pow_succ] at hlt; calc n < e * (10 ^ fuel * 10) := by omega
                       _ = e * 10 * 10 ^ fuel := by ring)
      refine ⟨j + 1, ?_, ?_, ?_⟩
      · rw [hj1]; ring
      · calc n / (e * 10 ^ (j + 1) * 10) = n / (e * 10 * 10 ^ j * 10) := by ring_nf
          _ ≤ maxPoints := hj2
      · intro i hi
        cases i with
        | zero => simpa using hc
        | succ i' =>
          calc maxPoints < n / (e * 10 * 10 ^ i' * 10) := hj3 i' (by omega)
            _ = n / (e * 10 ^ (i' + 1) * 10) := by ring_nf
    · rw [if_neg hc]
      refine ⟨0, by simp, ?_, by omega⟩
      simp only [pow_zero, mul_one]
      omega

/-- The chosen multiplier never exceeds the level's last candidate. -/
theorem pickFreq_le (n maxPoints exp10 : Nat) :
    pickFreq n maxPoints exp10 ≤ 10 * exp10 := by
  unfold pickFreq
  split_ifs <;> omega

/-- The chosen yearly step keeps the quotient within the budget,
provided the level's last candidate does. -/
theorem pickFreq_qualifies (n maxPoints exp10 : Nat)
    (h10 : n / (exp10 * 10) ≤ maxPoints) :
    n / pickFreq n maxPoints exp10 ≤ maxPoints := by
  unfold pickFreq
  split_ifs with a b c
  · rw [one_mul]
    simpa using a
  · rw [mul_comm]
    exact b
  · rw [mul_comm]
    exact c
  · rw [mul_comm]
    exact h10

/-- Within its level, the chosen step is at most any qualifying
candidate multiplier. -/
theorem pickFreq_min (n maxPoints exp10 : Nat) :
    ∀ m ∈ ([1, 2, 5, 10] : List Nat), n / (exp10 * m) ≤ maxPoints →
      pickFreq n maxPoints exp10 ≤ m * exp10 := by
  intro m hm hq
  fin_cases hm <;> unfold pickFreq <;> split_ifs <;> omega

/-- The yearly step is positive. -/
theorem yearlyFreq_pos (n maxPoints : Nat) : 1 ≤ yearlyFreq n maxPoints := by
  obtain ⟨j, hj1, -, -⟩ := findExp10Go_spec n maxPoints (n + 1) 1 (by norm_num)
    (by have := Nat.lt_pow_self (show 1 < 10 by norm_num) n
        have h2 : (10 : Nat) ^ n ≤ 10 ^ (n + 1) :=
          Nat.pow_le_pow_right (by norm_num) (by omega)
        omega)
  rw [yearlyFreq, hj1]
  have hp : 1 ≤ (10 : Nat) ^ j := Nat.one_le_pow _ _ (by norm_num)
  unfold pickFreq
  split_ifs <;> omega

/-- Full characterisation of the yearly step: it has the candidate form
`m * 10^k` with `m ∈ {1, 2, 5, 10}`, its quotient fits the budget, and
it is the smallest such candidate. -/
theorem yearlyFreq_spec (n maxPoints : Nat) :
    (∃ k m, m ∈ ([1, 2, 5, 10] : List Nat) ∧ yearlyFreq n maxPoints = m * 10 ^ k) ∧
    n / yearlyFreq n maxPoints ≤ maxPoints ∧
    ∀ c k m : Nat, m ∈ ([1, 2, 5, 10] : List Nat) → c = m * 10 ^ k →
      n / c ≤ maxPoints → yearlyFreq n maxPoints ≤ c := by
  obtain ⟨j, hj1, hj2, hj3⟩ := findExp10Go_spec n maxPoints (n + 1) 1 (by norm_num)
    (by have := Nat.lt_pow_self (show 1 < 10 by norm_num) n
        have h2 : (10 : Nat) ^ n ≤ 10 ^ (n + 1) :=
          Nat.pow_le_pow_right (by norm_num) (by omega)
        omega)
  rw [one_mul] at hj1
  simp only [one_mul] at hj2 hj3
  have hfreq : yearlyFreq n maxPoints = pickFreq n maxPoints (10 ^ j) := by
    rw [yearlyFreq, hj1]
  refine ⟨?_, ?_, ?_⟩
  · rw [hfreq]
    unfold pickFreq
    split_ifs
    · exact ⟨j, 1, by norm_num, rfl⟩
    · exact ⟨j, 2, by norm_num, rfl⟩
    · exact ⟨j, 5, by norm_num, rfl⟩
    · exact ⟨j, 10, by norm_num, rfl⟩
  · rw [hfreq]
    exact pickFreq_qualifies n maxPoints (10 ^ j) hj2
  · intro c k m hm hc hq
    rw [hfreq]
    subst hc
    have hm1 : 1 ≤ m := by fin_cases hm <;> norm_num
    have hm10 : m ≤ 10 := by fin_cases hm <;> norm_num
    rcases lt_trichotomy k j with hk | hk | hk
    · exfalso
      have hcle : m * 10 ^ k ≤ 10 ^ (k + 1) := by
        rw [pow_succ]
        calc m * 10 ^ k ≤ 10 * 10 ^ k := by
              exact Nat.mul_le_mul_right _ hm10
          _ = 10 ^ k * 10 := by ring
      have hmono : n / 10 ^ (k + 1) ≤ n / (m * 10 ^ k) :=
        Nat.div_le_div_left hcle (by positivity)
      have := hj3 k hk
      have hpowten : (10 : Nat) ^ k * 10 = 10 ^ (k + 1) := by rw [pow_succ]
      rw [hpowten] at this
      omega
    · subst hk
      have := pickFreq_min n maxPoints (10 ^ k) m hm (by rw [mul_comm]; exact hq)
      exact this
    · have h1 : pickFreq n maxPoints (10 ^ j) ≤ 10 * 10 ^ j := pickFreq_le _ _ _
      have h2 : (10 : Nat) * 10 ^ j = 10 ^ (j + 1) := by rw [pow_succ]; ring
      have h3 : (10 : Nat) ^ (j + 1) ≤ 10 ^ k := Nat.pow_le_pow_right (by norm_num) (by omega)
      have h4 : (10 : Nat) ^ k ≤ m * 10 ^ k := Nat.le_mul_of_pos_left _ (by omega)
      omega

/-- The yearly emission loop is empty when `start_year` has passed
`end_year`. -/
theorem emitYearsGo_empty {sm freq : Nat} {ey sy : Int} (h : ey < sy) :
    ∀ fuel : Nat, emitYearsGo sm freq ey sy fuel = []
  | 0 => rfl
  | fuel + 1 => by rw [emitYearsGo, if_neg (by omega)]

/-- Closed form of the yearly emission loop: every `freq`-th year from
`start_year` through `end_year` inclusive, pinned to the first of
`start_month`. -/
theorem emitYearsGo_closed (sm freq : Nat) (ey : Int) (hf : 1 ≤ freq) :
    ∀ (fuel : Nat) (sy : Int), (ey - sy).toNat < fuel →
      emitYearsGo sm freq ey sy fuel =
        (List.range (if ey < sy then 0 else (ey - sy).toNat / freq + 1)).map
          (fun (i : Nat) => ⟨sy + ((freq * i : Nat) : Int), sm, 1⟩)
  | 0, sy, hfuel => absurd hfuel (by omega)
  | fuel + 1, sy, hfuel => by
    rw [emitYearsGo]
    by_cases hle : sy ≤ ey
    · rw [if_pos hle, if_neg (by omega)]
      by_cases hstep : sy + (freq : Int) ≤ ey
      · have ih := emitYearsGo_closed sm freq ey hf fuel (sy + (freq : Int)) (by omega)
        rw [ih, if_neg (by omega)]
        have hdiv : (ey - sy).toNat / freq = (ey - (sy + (freq : Int))).toNat / freq + 1 := by
          have h1 : (ey - sy).toNat = (ey - (sy + (freq : Int))).toNat + freq := by omega
          rw [h1, Nat.add_div_right _ (by omega)]
        rw [hdiv]
        conv_rhs => rw [List.range_succ_eq_map, List.map_cons, List.map_map]
        congr 1
        · simp
        · refine List.map_congr_left fun i _ => ?_
          simp only [Function.comp_apply, CalDate.mk.injEq, and_true]
          push_cast
          ring
      · rw [emitYearsGo_empty (by omega)]
        have hdiv : (ey - sy).toNat / freq = 0 := Nat.div_eq_of_lt (by omega)
        rw [hdiv]
        rw [show List.range (0 + 1) = [0] from rfl]
        simp
    · rw [if_neg hle, if_pos (by omega)]
      simp

/-- Claim C5 (confirmed): the yearly algorithm decrements `end_year`
when `start_month > end_month` (visible as the `if em < sm` below), then
chooses the step `yearlyFreq n max_points` — provably of the form
`m * 10^k` with `m ∈ {1, 2, 5, 10}`, with `n / step ≤ max_points`, and
minimal among all such candidates (lexicographic `(n, m)` search and
by-value minimality coincide here) — and emits the 1st-of-`start_month`
of every `step`-th year from `start_year` through the (decremented)
`end_year` inclusive; on `2000-01-01 .. 2100-01-01` with
`max_points = 10` the step is 10 years, emitting `2000, 2010, ..., 2100`. -/
theorem c5_yearly_selection :
    (∀ n maxPoints : Nat,
      (∃ k m, m ∈ ([1, 2, 5, 10] : List Nat) ∧ yearlyFreq n maxPoints = m * 10 ^ k) ∧
      n / yearlyFreq n maxPoints ≤ maxPoints ∧
      ∀ c k m : Nat, m ∈ ([1, 2, 5, 10] : List Nat) → c = m * 10 ^ k →
        n / c ≤ maxPoints → yearlyFreq n maxPoints ≤ c) ∧
    (∀ (maxPoints : Nat) (sy : Int) (sm : Nat) (ey0 : Int) (em : Nat),
      generateYearlyKeypoints maxPoints sy sm ey0 em =
        (List.range
            (if (if em < sm then ey0 - 1 else ey0) < sy then 0
             else ((if em < sm then ey0 - 1 else ey0) - sy).toNat /
                 yearlyFreq (intCastU64 ((if em < sm then ey0 - 1 else ey0) - sy + 1))
                   maxPoints + 1)).map
          (fun (i : Nat) =>
            ⟨sy + ((yearlyFreq (intCastU64 ((if em < sm then ey0 - 1 else ey0) - sy + 1))
              maxPoints * i : Nat) : Int), sm, 1⟩)) ∧
    yearlyKeyPoints ⟨2000, 1, 1⟩ ⟨2100, 1, 1⟩ 10 =
      [⟨2000, 1, 1⟩, ⟨2010, 1, 1⟩, ⟨2020, 1, 1⟩, ⟨2030, 1, 1⟩, ⟨2040, 1, 1⟩, ⟨2050, 1, 1⟩,
       ⟨2060, 1, 1⟩, ⟨2070, 1, 1⟩, ⟨2080, 1, 1⟩, ⟨2090, 1, 1⟩, ⟨2100, 1, 1⟩] := by
  refine ⟨yearlyFreq_spec, fun maxPoints sy sm ey0 em => ?_, by decide⟩
  simp only [generateYearlyKeypoints]
  exact emitYearsGo_closed sm _ _ (yearlyFreq_pos _ _) _ sy (by omega)

/-- Witness for C5: the minimality conjunct at `n = 101`,
`max_points = 10` against the qualifying candidate `20 = 2 * 10^1`
(so the chosen 10-year step is at most 20), and the concrete
`2000 .. 2100` emission. -/
theorem c5_witness :
    yearlyFreq 101 10 ≤ 20 ∧
    yearlyKeyPoints ⟨2000, 1, 1⟩ ⟨2100, 1, 1⟩ 10 =
      [⟨2000, 1, 1⟩, ⟨2010, 1, 1⟩, ⟨2020, 1, 1⟩, ⟨2030, 1, 1⟩, ⟨2040, 1, 1⟩, ⟨2050, 1, 1⟩,
       ⟨2060, 1, 1⟩, ⟨2070, 1, 1⟩, ⟨2080, 1, 1⟩, ⟨2090, 1, 1⟩, ⟨2100, 1, 1⟩] := by
  refine ⟨?_, c5_yearly_selection.2.2⟩
  exact (c5_yearly_selection.1 101 10).2.2 20 1 2 (by norm_num) (by norm_num) (by norm_num)

/-! ## Claim C4 -/

/-- The monthly emission loop is empty when its guard fails at entry. -/
theorem generateKeyPointsGo_guard_false {step : Nat} {ey : Int} {em : Nat} {sy : Int}
    {sm : Nat} (h : ¬(ey > sy ∨ (ey = sy ∧ sm ≤ em))) :
    ∀ fuel : Nat, generateKeyPointsGo step ey em sy sm fuel = []
  | 0 => rfl
  | fuel + 1 => by rw [generateKeyPointsGo, if_neg h]

/-- Claim C4 (confirmed): after the start is normalised to the 1st of
the next month when needed, `Monthly::key_points` chooses the step
exactly as claimed — 1 month if `total_months ≤ max_points`, else 3 if
`≤ 3 * max_points`, else 6 if `≤ 6 * max_points`, else it delegates to
the yearly algorithm — and the emitted instants are the 1st-of-month
dates stepped by the chosen step with year carry (`generateKeyPoints`).
The year-magnitude hypotheses are `chrono`'s `Date` bounds, under which
the `i32`/`usize` casts in the source are exact (the one negative value
`total_months = -1`, reachable when the normalised start passes `end`,
makes every branch emit the empty list, so the claimed reading agrees
with the wrapped cast there too). -/
theorem c4_monthly_selection (b e : CalDate) (maxPoints : Nat)
    (hb : validCalDate b) (he : validCalDate e) (hle : dateLE b e)
    (hby : b.year.natAbs ≤ 262143) (hey : e.year.natAbs ≤ 262143) :
    monthlyKeyPoints b e maxPoints =
      (if (e.year - (normalizeStart b).1) * 12 + (e.month : Int) -
            ((normalizeStart b).2 : Int) ≤ (maxPoints : Int) then
        generateKeyPoints (normalizeStart b).1 (normalizeStart b).2 e.year e.month 1
      else if (e.year - (normalizeStart b).1) * 12 + (e.month : Int) -
            ((normalizeStart b).2 : Int) ≤ (maxPoints : Int) * 3 then
        generateKeyPoints (normalizeStart b).1 (normalizeStart b).2 e.year e.month 3
      else if (e.year - (normalizeStart b).1) * 12 + (e.month : Int) -
            ((normalizeStart b).2 : Int) ≤ (maxPoints : Int) * 6 then
        generateKeyPoints (normalizeStart b).1 (normalizeStart b).2 e.year e.month 6
      else generateYearlyKeypoints maxPoints (normalizeStart b).1 (normalizeStart b).2
        e.year e.month) := by
  obtain ⟨hbm1, hbm2, hbd1, hbd2⟩ := hb
  obtain ⟨hem1, hem2, hed1, hed2⟩ := he
  rcases hns : normalizeStart b with ⟨sy, sm⟩
  have hkey : 1 ≤ sm ∧ sm ≤ 12 ∧ b.year * 12 + (b.month : Int) ≤ sy * 12 + sm ∧
      sy * 12 + (sm : Int) ≤ b.year * 12 + b.month + 1 := by
    rw [normalizeStart] at hns
    split_ifs at hns with h1 h2 <;>
      (rw [Prod.mk.injEq] at hns
       obtain ⟨h3, h4⟩ := hns
       subst h3
       subst h4) <;>
      constructor <;> omega
  have hBE : b.year * 12 + (b.month : Int) ≤ e.year * 12 + e.month := by
    rcases hle with h | ⟨h, h' | ⟨h', h''⟩⟩ <;> omega
  have htm : -1 ≤ (e.year - sy) * 12 + (e.month : Int) - sm := by omega
  simp only [monthlyKeyPoints, hns]
  by_cases htm0 : 0 ≤ (e.year - sy) * 12 + (e.month : Int) - sm
  · have htmlt : (e.year - sy) * 12 + (e.month : Int) - sm < 2 ^ 64 := by omega
    have hcast : intCastU64 ((e.year - sy) * 12 + (e.month : Int) - sm) =
        ((e.year - sy) * 12 + (e.month : Int) - sm).toNat := by
      rw [intCastU64]
      congr 1
      exact Int.emod_eq_of_lt htm0 htmlt
    have h1iff : ((e.year - sy) * 12 + (e.month : Int) - sm).toNat ≤ maxPoints ↔
        (e.year - sy) * 12 + (e.month : Int) - sm ≤ (maxPoints : Int) := Int.toNat_le
    have h2iff : ((e.year - sy) * 12 + (e.month : Int) - sm).toNat ≤ maxPoints * 3 ↔
        (e.year - sy) * 12 + (e.month : Int) - sm ≤ (maxPoints : Int) * 3 := by
      rw [Int.toNat_le]
      push_cast
      rfl
    have h3iff : ((e.year - sy) * 12 + (e.month : Int) - sm).toNat ≤ maxPoints * 6 ↔
        (e.year - sy) * 12 + (e.month : Int) - sm ≤ (maxPoints : Int) * 6 := by
      rw [Int.toNat_le]
      push_cast
      rfl
    rw [hcast, if_congr h1iff rfl (if_congr h2iff rfl (if_congr h3iff rfl rfl))]
  · have htm1 : (e.year - sy) * 12 + (e.month : Int) - sm = -1 := by omega
    have hguard : ¬(e.year > sy ∨ (e.year = sy ∧ sm ≤ e.month)) := by
      intro hcon
      rcases hcon with h | ⟨h, h'⟩ <;> omega
    have hgen : ∀ step : Nat, generateKeyPoints sy sm e.year e.month step = [] := by
      intro step
      rw [generateKeyPoints]
      exact generateKeyPointsGo_guard_false hguard _
    have hyear : generateYearlyKeypoints maxPoints sy sm e.year e.month = [] := by
      simp only [generateYearlyKeypoints]
      exact emitYearsGo_empty (by split_ifs with h <;> omega) _
    rw [htm1]
    split_ifs <;> simp [hgen, hyear]

/-- Witness for C4: the spec's scenario 3 — `Monthly` over
`2020-01-01 .. 2021-12-31` with `max_points = 12` has
`total_months = 23`, which exceeds 12 but not `12 * 3`, so the chosen
step is 3 months (quarterly). -/
theorem c4_witness :
    monthlyKeyPoints ⟨2020, 1, 1⟩ ⟨2021, 12, 31⟩ 12 = generateKeyPoints 2020 1 2021 12 3 := by
  have h := c4_monthly_selection ⟨2020, 1, 1⟩ ⟨2021, 12, 31⟩ 12 (by decide) (by decide)
    (by decide) (by decide) (by decide)
  rw [h]
  decide
